import Mathlib

/-!
Verification of the AssetTransfer smart contract
(src/team_contracts/team3/lib/assetTransfer.js).

The contract is straight-line CRUD over a key-value world state provided by
the host ledger runtime.  We shallowly embed:

* JSON values (`Json`) together with the two serialisation functions the
  contract uses: plain insertion-order compact stringification (modelling
  the built-in JSON.stringify) and the deterministic key-sorted
  stringification (modelling json-stringify-deterministic composed with
  sort-keys-recursive);
* a JSON parser (modelling JSON.parse on the fragment of JSON the contract
  manipulates: objects, arrays, strings, booleans, null and integer
  numerals), used by GetAllAssets and to express round-trip properties;
* the world state as an association list ordered by the range-scan order,
  with getState / putState / deleteState / getStateByRange stubs;
* the seven contract functions.  A thrown JS error is modelled as an
  `Except.error` carrying the message text; since a throw happens before
  any write on every error path, each operation also returns the world
  state it leaves behind.
-/

/-- Abstract syntax of the JSON values manipulated by the contract. -/
inductive Json where
  | null
  | bool (b : Bool)
  | num (n : Int)
  | str (s : String)
  | arr (elems : List Json)
  | obj (members : List (String × Json))

/-- Lexicographic comparison of character lists by code point, the order in
which the sort-keys-recursive library (via the default JS array sort) ranks
object keys. -/
def charListLe : List Char → List Char → Bool
  | [], _ => true
  | _ :: _, [] => false
  | a :: as, b :: bs =>
      if a = b then charListLe as bs
      else decide (a.toNat < b.toNat)

/-- Key comparison used when sorting object members. -/
def strLe (a b : String) : Bool := charListLe a.data b.data

/-- Order on object members induced by their keys. -/
def keyLE (a b : String × Json) : Prop := strLe a.1 b.1 = true

instance : DecidableRel keyLE := fun a b => inferInstanceAs (Decidable (strLe a.1 b.1 = true))

mutual

/-- Recursively sort all object keys, modelling the sort-keys-recursive
library (which also descends into arrays). -/
def sortKeysRecursive : Json → Json
  | .null => .null
  | .bool b => .bool b
  | .num n => .num n
  | .str s => .str s
  | .arr es => .arr (sortKeysArr es)
  | .obj ms => .obj (List.insertionSort keyLE (sortKeysMembers ms))
termination_by structural j => j

/-- Recursive key sorting for every element of an array. -/
def sortKeysArr : List Json → List Json
  | [] => []
  | j :: js => sortKeysRecursive j :: sortKeysArr js
termination_by structural js => js

/-- Recursive key sorting for every member value of an object. -/
def sortKeysMembers : List (String × Json) → List (String × Json)
  | [] => []
  | (k, v) :: ms => (k, sortKeysRecursive v) :: sortKeysMembers ms
termination_by structural ms => ms

end

/-- Hexadecimal digit character (lowercase), as produced by the \u escapes
of JSON.stringify. -/
def hexDigitChar (n : Nat) : Char :=
  if n < 10 then Char.ofNat (48 + n) else Char.ofNat (87 + n)

/-- Escape one character the way JSON.stringify quotes string contents. -/
def escapeChar (c : Char) : List Char :=
  if c = '"' then ['\\', '"']
  else if c = '\\' then ['\\', '\\']
  else if c = '\x08' then ['\\', 'b']
  else if c = '\t' then ['\\', 't']
  else if c = '\n' then ['\\', 'n']
  else if c = '\x0c' then ['\\', 'f']
  else if c = '\r' then ['\\', 'r']
  else if c.toNat < 32 then
    ['\\', 'u', '0', '0', hexDigitChar (c.toNat / 16), hexDigitChar (c.toNat % 16)]
  else [c]

/-- Escape a whole character list. -/
def escapeChars : List Char → List Char
  | [] => []
  | c :: rest => escapeChar c ++ escapeChars rest

/-- Characters of a JSON string literal, quotes included. -/
def quoteChars (s : String) : List Char := '"' :: (escapeChars s.data ++ ['"'])

/-- Decimal digit character. -/
def digitChar (n : Nat) : Char := Char.ofNat (48 + n)

/-- Decimal digits of a natural number (fuel-based helper). -/
def natDigitsAux : Nat → Nat → List Char
  | 0, _ => []
  | fuel + 1, n =>
      if n < 10 then [digitChar n]
      else natDigitsAux fuel (n / 10) ++ [digitChar (n % 10)]

/-- Decimal digits of a natural number. -/
def natChars (n : Nat) : List Char := natDigitsAux (n + 1) n

/-- Decimal representation of an integer, as JSON.stringify prints integral
JS numbers. -/
def intChars : Int → List Char
  | .ofNat n => natChars n
  | .negSucc n => '-' :: natChars (n + 1)

mutual

/-- Characters of the compact (whitespace-free) insertion-order JSON text of
a value, modelling JSON.stringify. -/
def jsChars : Json → List Char
  | .str s => quoteChars s
  | .num n => intChars n
  | .bool b => if b then "true".data else "false".data
  | .null => "null".data
  | .arr es => '[' :: (elemsChars es ++ [']'])
  | .obj ms => '{' :: (membersChars ms ++ ['}'])
termination_by structural j => j

/-- Comma-separated encodings of array elements. -/
def elemsChars : List Json → List Char
  | [] => []
  | [j] => jsChars j
  | j :: js => jsChars j ++ ',' :: elemsChars js
termination_by structural es => es

/-- Comma-separated encodings of object members. -/
def membersChars : List (String × Json) → List Char
  | [] => []
  | [(k, v)] => quoteChars k ++ ':' :: jsChars v
  | (k, v) :: ms => quoteChars k ++ ':' :: jsChars v ++ ',' :: membersChars ms
termination_by structural ms => ms

end

/-- Compact insertion-order JSON text of a value (JSON.stringify). -/
def jsStringify (j : Json) : String := String.mk (jsChars j)

/-- Deterministic canonical serialisation, modelling the
json-stringify-deterministic library: object keys are emitted in sorted
order, with no whitespace. -/
def stringifyDeterministic (j : Json) : String := jsStringify (sortKeysRecursive j)

/-- Value written to the world state by the contract:
stringify(sortKeysRecursive(asset)) in the source. -/
def storeEncode (j : Json) : String := stringifyDeterministic (sortKeysRecursive j)

/-! ### A JSON parser, modelling JSON.parse -/

/-- Drop leading JSON whitespace. -/
def skipWs : List Char → List Char
  | c :: rest => if c = ' ' ∨ c = '\n' ∨ c = '\t' ∨ c = '\r' then skipWs rest else c :: rest
  | [] => []

/-- Value of one hexadecimal digit character. -/
def hexVal (c : Char) : Option Nat :=
  if 48 ≤ c.toNat ∧ c.toNat ≤ 57 then some (c.toNat - 48)
  else if 97 ≤ c.toNat ∧ c.toNat ≤ 102 then some (c.toNat - 87)
  else if 65 ≤ c.toNat ∧ c.toNat ≤ 70 then some (c.toNat - 55)
  else none

/-- Decode a two-character escape of a JSON string literal. -/
def unescapeChar (e : Char) : Option Char :=
  if e = '"' then some '"'
  else if e = '\\' then some '\\'
  else if e = '/' then some '/'
  else if e = 'b' then some '\x08'
  else if e = 'f' then some '\x0c'
  else if e = 'n' then some '\n'
  else if e = 'r' then some '\r'
  else if e = 't' then some '\t'
  else none

/-- Parse the body of a JSON string literal after its opening quote,
returning the decoded characters and the input after the closing quote. -/
def parseStrChars : List Char → Option (List Char × List Char)
  | [] => none
  | c :: rest =>
      if c = '"' then some ([], rest)
      else if c = '\\' then
        match rest with
        | [] => none
        | e :: rest2 =>
            if e = 'u' then
              match rest2 with
              | h1 :: h2 :: h3 :: h4 :: rest3 =>
                  match hexVal h1, hexVal h2, hexVal h3, hexVal h4 with
                  | some a, some b, some c2, some d =>
                      (parseStrChars rest3).map
                        (fun p => (Char.ofNat (((a * 16 + b) * 16 + c2) * 16 + d) :: p.1, p.2))
                  | _, _, _, _ => none
              | _ => none
            else
              match unescapeChar e with
              | some c2 => (parseStrChars rest2).map (fun p => (c2 :: p.1, p.2))
              | none => none
      else if c.toNat < 32 then none
      else (parseStrChars rest).map (fun p => (c :: p.1, p.2))

/-- Decimal digit test. -/
def isDigit (c : Char) : Bool := 48 ≤ c.toNat && c.toNat ≤ 57

/-- Consume leading decimal digits, accumulating their value. -/
def parseDigits : List Char → Nat → Nat × List Char
  | [], acc => (acc, [])
  | c :: rest, acc =>
      if isDigit c then parseDigits rest (acc * 10 + (c.toNat - 48))
      else (acc, c :: rest)

/-- Parser modes: a value, the members of an object (after its opening
brace, known non-empty), or the elements of an array. -/
inductive PMode where
  | val
  | members
  | elems

/-- Fuel-indexed recursive-descent JSON parser.  The fuel bounds the nesting
depth explored; every recursive call strictly consumes input, so any fuel
larger than the input length is ample. -/
def parseM : Nat → PMode → List Char → Option (Json × List Char)
  | 0, _, _ => none
  | f + 1, .val, cs =>
      match skipWs cs with
      | '"' :: rest =>
          match parseStrChars rest with
          | some (s, r) => some (.str (String.mk s), r)
          | none => none
      | '{' :: rest =>
          match skipWs rest with
          | '}' :: r => some (.obj [], r)
          | r => parseM f .members r
      | '[' :: rest =>
          match skipWs rest with
          | ']' :: r => some (.arr [], r)
          | r => parseM f .elems r
      | 't' :: 'r' :: 'u' :: 'e' :: rest => some (.bool true, rest)
      | 'f' :: 'a' :: 'l' :: 's' :: 'e' :: rest => some (.bool false, rest)
      | 'n' :: 'u' :: 'l' :: 'l' :: rest => some (.null, rest)
      | '-' :: c :: rest =>
          if c = '0' then some (.num 0, rest)
          else if isDigit c then
            match parseDigits (c :: rest) 0 with
            | (n, r) => some (.num (-(n : Int)), r)
          else none
      | c :: rest =>
          if c = '0' then some (.num 0, rest)
          else if isDigit c then
            match parseDigits (c :: rest) 0 with
            | (n, r) => some (.num (n : Int), r)
          else none
      | [] => none
  | f + 1, .members, cs =>
      match cs with
      | '"' :: rest =>
          match parseStrChars rest with
          | some (k, r1) =>
              match skipWs r1 with
              | ':' :: r2 =>
                  match parseM f .val r2 with
                  | some (v, r3) =>
                      match skipWs r3 with
                      | ',' :: r4 =>
                          match parseM f .members (skipWs r4) with
                          | some (.obj ms, r) => some (.obj ((String.mk k, v) :: ms), r)
                          | _ => none
                      | '}' :: r4 => some (.obj [(String.mk k, v)], r4)
                      | _ => none
                  | none => none
              | _ => none
          | none => none
      | _ => none
  | f + 1, .elems, cs =>
      match parseM f .val cs with
      | some (v, r1) =>
          match skipWs r1 with
          | ',' :: r2 =>
              match parseM f .elems r2 with
              | some (.arr es, r) => some (.arr (v :: es), r)
              | _ => none
          | ']' :: r2 => some (.arr [v], r2)
          | _ => none
      | none => none

/-- Parse a whole string as one JSON value, requiring all input to be
consumed (modelling JSON.parse, which rejects trailing garbage). -/
def parseJson (s : String) : Option Json :=
  match parseM (s.length + 11) .val s.data with
  | some (j, rest) => if skipWs rest = [] then some j else none
  | none => none

/-! ### The world state and the context stub interface -/

/-- The world state: key-value pairs in range-scan (key) order. -/
abbrev WorldState := List (String × String)

/-- Stub getState: the stored value at a key, if any. -/
def getState (st : WorldState) (key : String) : Option String :=
  match st with
  | [] => none
  | (k, v) :: rest => if key = k then some v else getState rest key

/-- Stub putState: overwrite the value at a key, inserting the key at its
lexicographic position if absent. -/
def putState (st : WorldState) (key value : String) : WorldState :=
  match st with
  | [] => [(key, value)]
  | (k, v) :: rest =>
      if key = k then (key, value) :: rest
      else if strLe key k then (key, value) :: (k, v) :: rest
      else (k, v) :: putState rest key value

/-- Stub deleteState: remove the entry at a key. -/
def deleteState (st : WorldState) (key : String) : WorldState :=
  match st with
  | [] => []
  | (k, v) :: rest => if key = k then rest else (k, v) :: deleteState rest key

/-- Stub getStateByRange: entries with startKey ≤ key < endKey in scan
order; an empty string means the range is unbounded on that side. -/
def getStateByRange (st : WorldState) (startKey endKey : String) : List (String × String) :=
  st.filter (fun kv =>
    (startKey = "" || strLe startKey kv.1) && (endKey = "" || !strLe endKey kv.1))

/-! ### The contract functions -/

/-- The asset record constructed by CreateAsset, fields in source insertion
order (RID, SID, Readings {BPM, HRV}, Time, Team).  All transaction
arguments arrive as strings and are stored verbatim. -/
def mkAsset (rid sid bpm hrv time team : String) : Json :=
  .obj [("RID", .str rid), ("SID", .str sid),
        ("Readings", .obj [("BPM", .str bpm), ("HRV", .str hrv)]),
        ("Time", .str time), ("Team", .str team)]

/-- The record constructed by UpdateAsset; the timestamp key is spelled
TIme in the source, unlike the Time of CreateAsset. -/
def mkUpdatedAsset (rid sid bpm hrv time team : String) : Json :=
  .obj [("RID", .str rid), ("SID", .str sid),
        ("Readings", .obj [("BPM", .str bpm), ("HRV", .str hrv)]),
        ("TIme", .str time), ("Team", .str team)]

/-- The seed asset of InitLedger, with docType added as the last field. -/
def initAsset : Json :=
  .obj [("RID", .str "101"), ("SID", .str "1"),
        ("Readings", .obj [("BPM", .num 100), ("HRV", .num 10)]),
        ("Time", .str "2023-11-04T15:30:00.000Z"), ("Team", .str "team3"),
        ("docType", .str "asset")]

/-- AssetExists: true iff getState returns a non-null, non-empty value. -/
def AssetExists (st : WorldState) (rid : String) : Bool :=
  match getState st rid with
  | some v => decide (0 < v.length)
  | none => false

/-- InitLedger: unconditionally write the canonical encoding of the seed
asset under its RID. -/
def InitLedger (st : WorldState) : WorldState :=
  putState st "101" (storeEncode initAsset)

/-- CreateAsset: fail if the RID exists, otherwise write the canonical
encoding and return the insertion-order JSON text of the record. -/
def CreateAsset (st : WorldState) (rid sid bpm hrv time team : String) :
    Except String String × WorldState :=
  if AssetExists st rid then
    (.error ("The asset " ++ rid ++ " already exists"), st)
  else
    (.ok (jsStringify (mkAsset rid sid bpm hrv time team)),
      putState st rid (storeEncode (mkAsset rid sid bpm hrv time team)))

/-- ReadAsset: return the stored text, failing if absent or empty. -/
def ReadAsset (st : WorldState) (rid : String) : Except String String × WorldState :=
  match getState st rid with
  | some v =>
      if v.length = 0 then (.error ("The asset " ++ rid ++ " does not exist"), st)
      else (.ok v, st)
  | none => (.error ("The asset " ++ rid ++ " does not exist"), st)

/-- UpdateAsset: fail if the RID does not exist, otherwise overwrite the
stored record with the canonical encoding of the freshly built record. -/
def UpdateAsset (st : WorldState) (rid sid bpm hrv time team : String) :
    Except String Unit × WorldState :=
  if AssetExists st rid then
    (.ok (), putState st rid (storeEncode (mkUpdatedAsset rid sid bpm hrv time team)))
  else
    (.error ("The asset " ++ rid ++ " does not exist"), st)

/-- DeleteAsset: fail if the RID does not exist, otherwise delete the key. -/
def DeleteAsset (st : WorldState) (rid : String) : Except String Unit × WorldState :=
  if AssetExists st rid then (.ok (), deleteState st rid)
  else (.error ("The asset " ++ rid ++ " does not exist"), st)

/-- Element contributed to the GetAllAssets result by one stored value: the
parsed record, or on parse failure the raw text itself. -/
def listedItem (v : String) : Json :=
  match parseJson v with
  | some j => j
  | none => .str v

/-- The while loop of GetAllAssets: drain the iterator, pushing one element
per entry onto the accumulator. -/
def getAllLoop : List (String × String) → List Json → List Json
  | [], acc => acc
  | (_, v) :: rest, acc => getAllLoop rest (acc ++ [listedItem v])

/-- GetAllAssets: drain an unbounded range scan and return the collected
list as one JSON text. -/
def GetAllAssets (st : WorldState) : String :=
  jsStringify (.arr (getAllLoop (getStateByRange st "" "") []))

/-! ### Order lemmas for the key comparison -/

theorem charToNat_inj {a b : Char} (h : a.toNat = b.toNat) : a = b := by
  cases a
  cases b
  simp only [Char.toNat] at h
  congr 1
  exact UInt32.toNat.inj h

theorem charListLe_total : ∀ a b : List Char, charListLe a b = true ∨ charListLe b a = true
  | [], _ => Or.inl rfl
  | _ :: _, [] => Or.inr rfl
  | a :: as, b :: bs => by
      by_cases hab : a = b
      · subst hab
        simpa [charListLe] using charListLe_total as bs
      · have hne : a.toNat ≠ b.toNat := fun h => hab (charToNat_inj h)
        have hba : b ≠ a := fun h => hab h.symm
        rcases Nat.lt_or_ge a.toNat b.toNat with h | h
        · exact Or.inl (by simp [charListLe, hab, h])
        · have : b.toNat < a.toNat := lt_of_le_of_ne h (fun he => hne he.symm)
          exact Or.inr (by simp [charListLe, hba, this])

theorem charListLe_trans :
    ∀ a b c : List Char, charListLe a b = true → charListLe b c = true →
      charListLe a c = true
  | [], _, _, _, _ => rfl
  | _ :: _, [], _, h, _ => by simp [charListLe] at h
  | _ :: _, _ :: _, [], _, h => by simp [charListLe] at h
  | a :: as, b :: bs, c :: cs, hab, hbc => by
      by_cases h1 : a = b
      · subst h1
        by_cases h2 : a = c
        · subst h2
          simp only [charListLe, if_pos rfl] at hab hbc ⊢
          exact charListLe_trans as bs cs hab hbc
        · simpa [charListLe, h2] using (by simpa [charListLe, h2] using hbc)
      · by_cases h2 : b = c
        · subst h2
          simpa [charListLe, h1] using (by simpa [charListLe, h1] using hab)
        · simp only [charListLe, if_neg h1] at hab
          simp only [charListLe, if_neg h2] at hbc
          have hlt1 : a.toNat < b.toNat := of_decide_eq_true hab
          have hlt2 : b.toNat < c.toNat := of_decide_eq_true hbc
          have hac : a ≠ c := fun h => by
            subst h
            omega
          simp only [charListLe, if_neg hac]
          exact decide_eq_true (by omega)

theorem charListLe_antisymm :
    ∀ a b : List Char, charListLe a b = true → charListLe b a = true → a = b
  | [], [], _, _ => rfl
  | [], _ :: _, _, h => by simp [charListLe] at h
  | _ :: _, [], h, _ => by simp [charListLe] at h
  | a :: as, b :: bs, hab, hba => by
      by_cases h1 : a = b
      · subst h1
        simp only [charListLe, if_pos rfl] at hab hba
        rw [charListLe_antisymm as bs hab hba]
      · have hba' : b ≠ a := fun h => h1 h.symm
        simp only [charListLe, if_neg h1] at hab
        simp only [charListLe, if_neg hba'] at hba
        have := of_decide_eq_true hab
        have := of_decide_eq_true hba
        omega

theorem strLe_antisymm {a b : String} (hab : strLe a b = true) (hba : strLe b a = true) :
    a = b := by
  have h := charListLe_antisymm a.data b.data hab hba
  cases a
  cases b
  exact congrArg String.mk h

instance : IsTotal (String × Json) keyLE :=
  ⟨fun a b => charListLe_total a.1.data b.1.data⟩

instance : IsTrans (String × Json) keyLE :=
  ⟨fun _ _ _ h1 h2 => charListLe_trans _ _ _ h1 h2⟩

/-- Strict version of the member order: keys comparable and distinct. -/
def keyLT (a b : String × Json) : Prop := keyLE a b ∧ a.1 ≠ b.1

theorem keyLT_antisymm : ∀ {a b : String × Json}, keyLT a b → keyLT b a → a = b :=
  fun hab hba => absurd (strLe_antisymm hab.1 hba.1) hab.2

/-- Sorting a duplicate-free member list depends only on the set of members,
not on their construction order: the heart of deterministic encoding. -/
theorem insertionSort_perm_nodup_eq {l₁ l₂ : List (String × Json)}
    (hp : l₁.Perm l₂) (hn : (l₁.map Prod.fst).Nodup) :
    List.insertionSort keyLE l₁ = List.insertionSort keyLE l₂ := by
  have hps₁ := List.perm_insertionSort keyLE l₁
  have hps₂ := List.perm_insertionSort keyLE l₂
  have hp12 : (List.insertionSort keyLE l₁).Perm (List.insertionSort keyLE l₂) :=
    hps₁.trans (hp.trans hps₂.symm)
  have hs₁ : (List.insertionSort keyLE l₁).Sorted keyLE := List.sorted_insertionSort keyLE l₁
  have hs₂ : (List.insertionSort keyLE l₂).Sorted keyLE := List.sorted_insertionSort keyLE l₂
  have hn₁ : ((List.insertionSort keyLE l₁).map Prod.fst).Nodup :=
    ((hps₁.map Prod.fst).nodup_iff).mpr hn
  have hn₂ : ((List.insertionSort keyLE l₂).map Prod.fst).Nodup :=
    ((hp12.map Prod.fst).nodup_iff).mp hn₁
  have hst₁ : (List.insertionSort keyLE l₁).Sorted keyLT :=
    (hs₁.and (List.pairwise_map.mp hn₁)).imp (fun h => ⟨h.1, h.2⟩)
  have hst₂ : (List.insertionSort keyLE l₂).Sorted keyLT :=
    (hs₂.and (List.pairwise_map.mp hn₂)).imp (fun h => ⟨h.1, h.2⟩)
  exact @List.eq_of_perm_of_sorted _ keyLT ⟨fun _ _ hab hba => keyLT_antisymm hab hba⟩
    _ _ hp12 hst₁ hst₂

/-- sortKeysMembers is a map over the member values. -/
theorem sortKeysMembers_eq_map (ms : List (String × Json)) :
    sortKeysMembers ms = ms.map (fun kv => (kv.1, sortKeysRecursive kv.2)) := by
  induction ms with
  | nil => rfl
  | cons kv rest ih =>
      cases kv
      simp [sortKeysMembers, ih]

/-- A member list whose values are all fixed points of the recursive sort is
itself a fixed point of sortKeysMembers. -/
theorem sortKeysMembers_fixed :
    ∀ ms : List (String × Json), (∀ p ∈ ms, sortKeysRecursive p.2 = p.2) →
      sortKeysMembers ms = ms
  | [], _ => rfl
  | (k, v) :: tl, h => by
      rw [show sortKeysMembers ((k, v) :: tl) =
          (k, sortKeysRecursive v) :: sortKeysMembers tl from rfl,
        h (k, v) (by simp), sortKeysMembers_fixed tl (fun p hp => h p (by simp [hp]))]

mutual

/-- Sorting keys recursively is idempotent. -/
theorem sortKeysRecursive_idem :
    ∀ j, sortKeysRecursive (sortKeysRecursive j) = sortKeysRecursive j
  | .null => rfl
  | .bool b => rfl
  | .num n => rfl
  | .str s => rfl
  | .arr es => by
      rw [show sortKeysRecursive (Json.arr es) = .arr (sortKeysArr es) from rfl,
        show sortKeysRecursive (Json.arr (sortKeysArr es)) =
          .arr (sortKeysArr (sortKeysArr es)) from rfl,
        sortKeysArr_idem es]
  | .obj ms => by
      rw [show sortKeysRecursive (Json.obj ms) =
          .obj (List.insertionSort keyLE (sortKeysMembers ms)) from rfl,
        show sortKeysRecursive (Json.obj (List.insertionSort keyLE (sortKeysMembers ms))) =
          .obj (List.insertionSort keyLE
            (sortKeysMembers (List.insertionSort keyLE (sortKeysMembers ms)))) from rfl,
        sortKeysMembers_fixed (List.insertionSort keyLE (sortKeysMembers ms))
          (fun p hp => sortKeysMembers_vals_fixed ms p
            ((List.perm_insertionSort keyLE (sortKeysMembers ms)).mem_iff.mp hp)),
        (List.sorted_insertionSort keyLE (sortKeysMembers ms)).insertionSort_eq]
termination_by structural j => j

/-- Array version of the idempotence. -/
theorem sortKeysArr_idem : ∀ es, sortKeysArr (sortKeysArr es) = sortKeysArr es
  | [] => rfl
  | j :: js => by
      rw [show sortKeysArr (j :: js) = sortKeysRecursive j :: sortKeysArr js from rfl,
        show sortKeysArr (sortKeysRecursive j :: sortKeysArr js) =
          sortKeysRecursive (sortKeysRecursive j) :: sortKeysArr (sortKeysArr js) from rfl,
        sortKeysRecursive_idem j, sortKeysArr_idem js]
termination_by structural es => es

/-- The values produced by sortKeysMembers are fixed points of the sort. -/
theorem sortKeysMembers_vals_fixed :
    ∀ ms, ∀ p ∈ sortKeysMembers ms, sortKeysRecursive p.2 = p.2
  | [], p, hp => absurd hp (List.not_mem_nil p)
  | (k, v) :: tl, p, hp => by
      rw [show sortKeysMembers ((k, v) :: tl) =
          (k, sortKeysRecursive v) :: sortKeysMembers tl from rfl] at hp
      rcases List.mem_cons.mp hp with h | h
      · rw [h]
        exact sortKeysRecursive_idem v
      · exact sortKeysMembers_vals_fixed tl p h
termination_by structural ms => ms

end

/-! ### World-state lemmas -/

theorem getState_putState_self (st : WorldState) (k v : String) :
    getState (putState st k v) k = some v := by
  induction st with
  | nil => simp [putState, getState]
  | cons hd rest ih =>
      cases hd with
      | mk k' v' =>
          by_cases h : k = k'
          · simp [putState, h, getState]
          · by_cases h2 : strLe k k' = true
            · simp [putState, h, h2, getState]
            · simp [putState, h, h2, getState, ih]

theorem getState_putState_ne (st : WorldState) {k q : String} (v : String) (h : q ≠ k) :
    getState (putState st k v) q = getState st q := by
  induction st with
  | nil => simp [putState, getState, h]
  | cons hd rest ih =>
      cases hd with
      | mk k' v' =>
          by_cases h1 : k = k'
          · subst h1
            simp [putState, getState, h]
          · by_cases h2 : strLe k k' = true
            · simp [putState, h1, h2, getState, h]
            · simp [putState, h1, h2, getState, ih]

theorem getState_deleteState_ne (st : WorldState) {k q : String} (h : q ≠ k) :
    getState (deleteState st k) q = getState st q := by
  induction st with
  | nil => simp [deleteState]
  | cons hd rest ih =>
      cases hd with
      | mk k' v' =>
          by_cases h1 : k = k'
          · subst h1
            simp [deleteState, getState, h]
          · simp [deleteState, h1, getState, ih]

theorem mem_putState {st : WorldState} {k v : String} {p : String × String}
    (hp : p ∈ putState st k v) : p = (k, v) ∨ p ∈ st := by
  induction st with
  | nil => simpa [putState] using hp
  | cons hd rest ih =>
      cases hd with
      | mk k' v' =>
          by_cases h1 : k = k'
          · rw [putState] at hp
            simp only [if_pos h1] at hp
            rcases List.mem_cons.mp hp with h | h
            · exact Or.inl h
            · exact Or.inr (List.mem_cons_of_mem _ h)
          · by_cases h2 : strLe k k' = true
            · rw [putState] at hp
              simp only [if_neg h1, if_pos h2] at hp
              rcases List.mem_cons.mp hp with h | h
              · exact Or.inl h
              · exact Or.inr h
            · rw [putState] at hp
              simp only [if_neg h1, if_neg h2] at hp
              rcases List.mem_cons.mp hp with h | h
              · exact Or.inr (by simp [h])
              · rcases ih h with h3 | h3
                · exact Or.inl h3
                · exact Or.inr (List.mem_cons_of_mem _ h3)

theorem mem_deleteState {st : WorldState} {k : String} {p : String × String}
    (hp : p ∈ deleteState st k) : p ∈ st := by
  induction st with
  | nil => simp [deleteState] at hp
  | cons hd rest ih =>
      cases hd with
      | mk k' v' =>
          by_cases h1 : k = k'
          · rw [deleteState] at hp
            simp only [if_pos h1] at hp
            exact List.mem_cons_of_mem _ hp
          · rw [deleteState] at hp
            simp only [if_neg h1] at hp
            rcases List.mem_cons.mp hp with h | h
            · simp [h]
            · exact List.mem_cons_of_mem _ (ih h)

theorem getStateByRange_all (st : WorldState) : getStateByRange st "" "" = st := by
  have : ∀ kv : String × String,
      ((("" : String) = "" || strLe "" kv.1) && (("" : String) = "" || !strLe "" kv.1)) = true := by
    intro kv
    simp
  simp only [getStateByRange]
  induction st with
  | nil => rfl
  | cons hd rest ih => simp [List.filter, this, ih]

/-! ### Canonical stored values -/

/-- A stored byte string is canonical when it is the compact whitespace-free
encoding of a record whose object keys are already recursively sorted (a
fixed point of sortKeysRecursive). -/
def Canonical (v : String) : Prop :=
  ∃ j, sortKeysRecursive j = j ∧ v = jsStringify j

/-- Every value in the world state is canonical. -/
def CanonicalState (st : WorldState) : Prop := ∀ p ∈ st, Canonical p.2

theorem canonical_storeEncode (j : Json) : Canonical (storeEncode j) :=
  ⟨sortKeysRecursive (sortKeysRecursive j), sortKeysRecursive_idem _, rfl⟩

theorem canonicalState_putState {st : WorldState} (hst : CanonicalState st)
    {v : String} (hv : Canonical v) (k : String) : CanonicalState (putState st k v) := by
  intro p hp
  rcases mem_putState hp with h | h
  · rw [h]
    exact hv
  · exact hst p h

theorem canonicalState_deleteState {st : WorldState} (hst : CanonicalState st)
    (k : String) : CanonicalState (deleteState st k) :=
  fun p hp => hst p (mem_deleteState hp)

/-! ### Round-trip of the string escaper and the string parser -/

theorem hexVal_hexDigitChar : ∀ n : Nat, n < 16 → hexVal (hexDigitChar n) = some n := by
  decide

theorem charOfNat_toNat {c : Char} (h : c.toNat < 32) : Char.ofNat c.toNat = c := by
  refine Char.ext ?_
  have hv : c.toNat.isValidChar := Or.inl (by omega)
  simp [Char.ofNat, hv]
  rfl

theorem parseStrChars_backslash (e c2 : Char) (R : List Char)
    (hu : e ≠ 'u') (he : unescapeChar e = some c2) :
    parseStrChars ('\\' :: e :: R) = (parseStrChars R).map (fun p => (c2 :: p.1, p.2)) := by
  rw [parseStrChars.eq_def]
  simp [hu, he]

theorem parseStrChars_escape : ∀ (s rest : List Char),
    parseStrChars (escapeChars s ++ '"' :: rest) = some (s, rest)
  | [], rest => by
      rw [show escapeChars [] ++ '"' :: rest = '"' :: rest from rfl, parseStrChars.eq_def]
      simp
  | c :: cs, rest => by
      have ih := parseStrChars_escape cs rest
      show parseStrChars ((escapeChar c ++ escapeChars cs) ++ '"' :: rest) = _
      rw [List.append_assoc]
      by_cases h1 : c = '"'
      · subst h1
        rw [show escapeChar '"' = ['\\', '"'] from rfl]
        simp only [List.cons_append, List.nil_append]
        rw [parseStrChars_backslash '"' '"' _ (by decide) (by decide), ih]
        rfl
      · by_cases h2 : c = '\\'
        · subst h2
          rw [show escapeChar '\\' = ['\\', '\\'] from rfl]
          simp only [List.cons_append, List.nil_append]
          rw [parseStrChars_backslash '\\' '\\' _ (by decide) (by decide), ih]
          rfl
        · by_cases h3 : c = '\x08'
          · subst h3
            rw [show escapeChar '\x08' = ['\\', 'b'] from rfl]
            simp only [List.cons_append, List.nil_append]
            rw [parseStrChars_backslash 'b' '\x08' _ (by decide) (by decide), ih]
            rfl
          · by_cases h4 : c = '\t'
            · subst h4
              rw [show escapeChar '\t' = ['\\', 't'] from rfl]
              simp only [List.cons_append, List.nil_append]
              rw [parseStrChars_backslash 't' '\t' _ (by decide) (by decide), ih]
              rfl
            · by_cases h5 : c = '\n'
              · subst h5
                rw [show escapeChar '\n' = ['\\', 'n'] from rfl]
                simp only [List.cons_append, List.nil_append]
                rw [parseStrChars_backslash 'n' '\n' _ (by decide) (by decide), ih]
                rfl
              · by_cases h6 : c = '\x0c'
                · subst h6
                  rw [show escapeChar '\x0c' = ['\\', 'f'] from rfl]
                  simp only [List.cons_append, List.nil_append]
                  rw [parseStrChars_backslash 'f' '\x0c' _ (by decide) (by decide), ih]
                  rfl
                · by_cases h7 : c = '\r'
                  · subst h7
                    rw [show escapeChar '\r' = ['\\', 'r'] from rfl]
                    simp only [List.cons_append, List.nil_append]
                    rw [parseStrChars_backslash 'r' '\r' _ (by decide) (by decide), ih]
                    rfl
                  · by_cases h8 : c.toNat < 32
                    · rw [show escapeChar c =
                          ['\\', 'u', '0', '0', hexDigitChar (c.toNat / 16),
                            hexDigitChar (c.toNat % 16)] by
                        simp [escapeChar, h1, h2, h3, h4, h5, h6, h7, h8]]
                      have hd1 := hexVal_hexDigitChar (c.toNat / 16) (by omega)
                      have hd2 := hexVal_hexDigitChar (c.toNat % 16) (by omega)
                      have harith : ∀ a b : Nat,
                          a = c.toNat / 16 → b = c.toNat % 16 →
                          ((0 * 16 + 0) * 16 + a) * 16 + b = c.toNat := by
                        intro a b ha hb
                        omega
                      simp only [List.cons_append, List.nil_append]
                      rw [parseStrChars.eq_def]
                      have h0 : hexVal '0' = some 0 := rfl
                      simp [h0, hd1, hd2, ih]
                      rw [show c.toNat / 16 * 16 + c.toNat % 16 = c.toNat from by omega]
                      exact charOfNat_toNat h8
                    · rw [show escapeChar c = [c] by
                        simp [escapeChar, h1, h2, h3, h4, h5, h6, h7, h8]]
                      rw [List.singleton_append, parseStrChars.eq_def]
                      simp only [if_neg h1, if_neg h2, if_neg h8, ih]
                      rfl

/-! ### Parsing the encodings produced by the contract -/

theorem stringMk_data (s : String) : String.mk s.data = s := rfl

theorem quoteChars_append (s : String) (r : List Char) :
    quoteChars s ++ r = '"' :: (escapeChars s.data ++ '"' :: r) := by
  simp [quoteChars]

theorem skipWs_quote (r : List Char) : skipWs ('"' :: r) = '"' :: r := rfl

theorem skipWs_colon (r : List Char) : skipWs (':' :: r) = ':' :: r := rfl

theorem skipWs_comma (r : List Char) : skipWs (',' :: r) = ',' :: r := rfl

theorem skipWs_rbrace (r : List Char) : skipWs ('}' :: r) = '}' :: r := rfl

theorem skipWs_nil : skipWs [] = [] := rfl

theorem parseM_val_quote (f : Nat) (X : List Char) :
    parseM (f + 1) .val ('"' :: X) =
      match parseStrChars X with
      | some (s2, r) => some (.str (String.mk s2), r)
      | none => none := rfl

theorem parseM_val_lbrace (f : Nat) (X : List Char) :
    parseM (f + 1) .val ('{' :: X) =
      match skipWs X with
      | '}' :: r => some (.obj [], r)
      | r => parseM f .members r := rfl

theorem parseM_members_unfold (f : Nat) (X : List Char) :
    parseM (f + 1) .members ('"' :: X) =
      match parseStrChars X with
      | some (k, r1) =>
          match skipWs r1 with
          | ':' :: r2 =>
              match parseM f .val r2 with
              | some (v, r3) =>
                  match skipWs r3 with
                  | ',' :: r4 =>
                      match parseM f .members (skipWs r4) with
                      | some (.obj ms, r) => some (.obj ((String.mk k, v) :: ms), r)
                      | _ => none
                  | '}' :: r4 => some (.obj [(String.mk k, v)], r4)
                  | _ => none
              | none => none
          | _ => none
      | none => none := rfl

theorem parseM_val_str (f : Nat) (s : String) (r : List Char) :
    parseM (f + 1) .val (quoteChars s ++ r) = some (.str s, r) := by
  rw [quoteChars_append, parseM_val_quote, parseStrChars_escape]

theorem skipWs_membersChars (hd : String × Json) (tl : List (String × Json)) (r : List Char) :
    skipWs (membersChars (hd :: tl) ++ r) = membersChars (hd :: tl) ++ r := by
  cases hd with
  | mk k v =>
      cases tl with
      | nil =>
          rw [show membersChars [(k, v)] = quoteChars k ++ ':' :: jsChars v from rfl]
          simp only [List.append_assoc, List.cons_append]
          rw [quoteChars_append, skipWs_quote]
      | cons m2 tl2 =>
          rw [show membersChars ((k, v) :: m2 :: tl2) =
              quoteChars k ++ ':' :: jsChars v ++ ',' :: membersChars (m2 :: tl2) from rfl]
          simp only [List.append_assoc, List.cons_append]
          rw [quoteChars_append, skipWs_quote]

theorem parseM_members_flat :
    ∀ (f : Nat) (ms : List (String × Json)) (rest : List Char),
      ms ≠ [] → (∀ kv ∈ ms, ∃ s, kv.2 = Json.str s) →
      parseM (f + ms.length + 1) .members (membersChars ms ++ '}' :: rest) =
        some (.obj ms, rest)
  | _, [], _, h, _ => absurd rfl h
  | f, [(k, v)], rest, _, hstr => by
      obtain ⟨s, hs⟩ := hstr (k, v) (by simp)
      simp only at hs
      subst hs
      rw [show membersChars [(k, Json.str s)] = quoteChars k ++ ':' :: quoteChars s from rfl,
        List.append_assoc, List.cons_append, quoteChars_append, parseM_members_unfold,
        parseStrChars_escape]
      simp [skipWs_colon, skipWs_rbrace, parseM_val_str, stringMk_data]
  | f, (k, v) :: m2 :: tl, rest, _, hstr => by
      obtain ⟨s, hs⟩ := hstr (k, v) (by simp)
      simp only at hs
      subst hs
      have ih := parseM_members_flat f (m2 :: tl) rest (by simp)
        (fun kv hkv => hstr kv (by simp [hkv]))
      rw [show membersChars ((k, Json.str s) :: m2 :: tl) =
          quoteChars k ++ ':' :: quoteChars s ++ ',' :: membersChars (m2 :: tl) from rfl]
      simp only [List.append_assoc, List.cons_append]
      show parseM ((f + (m2 :: tl).length + 1) + 1) .members _ = _
      rw [quoteChars_append, parseM_members_unfold, parseStrChars_escape]
      simp only [stringMk_data, skipWs_colon, parseM_val_str, skipWs_comma,
        skipWs_membersChars, ih]

/-- Fuel consumed by the parser on one value of the shapes the contract
stores: a string, or a non-empty object of strings. -/
def valFuel : Json → Nat
  | .obj ms => ms.length + 3
  | _ => 1

/-- Fuel consumed by the parser on a member list. -/
def msFuel : List (String × Json) → Nat
  | [] => 1
  | (_, v) :: tl => valFuel v + msFuel tl

theorem valFuel_pos (v : Json) : 1 ≤ valFuel v := by
  cases v <;> simp [valFuel]

theorem msFuel_pos (ms : List (String × Json)) : 1 ≤ msFuel ms := by
  cases ms with
  | nil => simp [msFuel]
  | cons hd tl =>
      obtain ⟨a, b⟩ := hd
      have := valFuel_pos b
      simp [msFuel]
      omega

/-- Values of the shape stored by the contract records: strings, or
non-empty objects whose member values are all strings. -/
def Depth2Val (v : Json) : Prop :=
  (∃ s, v = Json.str s) ∨
    (∃ ms, v = Json.obj ms ∧ ms ≠ [] ∧ ∀ kv ∈ ms, ∃ s, kv.2 = Json.str s)

theorem objBody_step (g : Nat) (hd : String × Json) (tl : List (String × Json))
    (r : List Char) :
    (match skipWs (membersChars (hd :: tl) ++ '}' :: r) with
      | '}' :: r2 => some (Json.obj [], r2)
      | r2 => parseM g .members r2) =
    parseM g .members (membersChars (hd :: tl) ++ '}' :: r) := by
  obtain ⟨k, v⟩ := hd
  cases tl with
  | nil =>
      rw [show membersChars [(k, v)] = quoteChars k ++ ':' :: jsChars v from rfl]
      simp only [List.append_assoc, List.cons_append, quoteChars_append, skipWs_quote]
      rfl
  | cons m2 tl2 =>
      rw [show membersChars ((k, v) :: m2 :: tl2) =
          quoteChars k ++ ':' :: jsChars v ++ ',' :: membersChars (m2 :: tl2) from rfl]
      simp only [List.append_assoc, List.cons_append, quoteChars_append, skipWs_quote]
      rfl

theorem parseM_val_depth2 (f : Nat) (v : Json) (r : List Char) (hv : Depth2Val v) :
    parseM (f + valFuel v) .val (jsChars v ++ r) = some (v, r) := by
  rcases hv with ⟨s, rfl⟩ | ⟨ms, rfl, hne, hstr⟩
  · exact parseM_val_str f s r
  · obtain ⟨hd, tl, rfl⟩ : ∃ hd tl, ms = hd :: tl := by
      cases ms with
      | nil => exact absurd rfl hne
      | cons hd tl => exact ⟨hd, tl, rfl⟩
    have hfuel : f + valFuel (Json.obj (hd :: tl)) = ((f + 1) + (hd :: tl).length + 1) + 1 := by
      simp [valFuel]
      omega
    rw [hfuel]
    rw [show jsChars (Json.obj (hd :: tl)) ++ r =
        '{' :: (membersChars (hd :: tl) ++ '}' :: r) by
      rw [show jsChars (Json.obj (hd :: tl)) =
          '{' :: (membersChars (hd :: tl) ++ ['}']) from rfl]
      simp]
    rw [parseM_val_lbrace, objBody_step]
    exact parseM_members_flat (f + 1) (hd :: tl) r (by simp) hstr

theorem parseM_members_depth2 :
    ∀ (f : Nat) (ms : List (String × Json)) (rest : List Char),
      ms ≠ [] → (∀ kv ∈ ms, Depth2Val kv.2) →
      parseM (f + msFuel ms) .members (membersChars ms ++ '}' :: rest) =
        some (.obj ms, rest)
  | _, [], _, h, _ => absurd rfl h
  | f, [(k, v)], rest, _, hd2 => by
      have hv := hd2 (k, v) (by simp)
      have hfuel : f + msFuel [(k, v)] = (f + valFuel v) + 1 := by
        simp only [msFuel]
        omega
      rw [hfuel]
      rw [show membersChars [(k, v)] = quoteChars k ++ ':' :: jsChars v from rfl]
      simp only [List.append_assoc, List.cons_append]
      rw [quoteChars_append, parseM_members_unfold, parseStrChars_escape]
      simp only [stringMk_data, skipWs_colon,
        parseM_val_depth2 f v ('}' :: rest) hv, skipWs_rbrace]
  | f, (k, v) :: m2 :: tl, rest, _, hd2 => by
      have hv := hd2 (k, v) (by simp)
      have hM := msFuel_pos (m2 :: tl)
      have hV := valFuel_pos v
      have ih := parseM_members_depth2 (f + valFuel v - 1) (m2 :: tl) rest (by simp)
        (fun kv hkv => hd2 kv (by simp [hkv]))
      have hfuel : f + msFuel ((k, v) :: m2 :: tl) =
          ((f + msFuel (m2 :: tl) - 1) + valFuel v) + 1 := by
        rw [show msFuel ((k, v) :: m2 :: tl) = valFuel v + msFuel (m2 :: tl) from rfl]
        omega
      rw [hfuel]
      rw [show membersChars ((k, v) :: m2 :: tl) =
          quoteChars k ++ ':' :: jsChars v ++ ',' :: membersChars (m2 :: tl) from rfl]
      simp only [List.append_assoc, List.cons_append]
      rw [quoteChars_append, parseM_members_unfold, parseStrChars_escape]
      simp only [stringMk_data, skipWs_colon,
        parseM_val_depth2 (f + msFuel (m2 :: tl) - 1) v
          (',' :: (membersChars (m2 :: tl) ++ '}' :: rest)) hv,
        skipWs_comma, skipWs_membersChars]
      rw [show f + msFuel (m2 :: tl) - 1 + valFuel v =
          f + valFuel v - 1 + msFuel (m2 :: tl) from by omega]
      simp only [ih]

/-- The CreateAsset record with its keys in canonical sorted order. -/
def mkAssetSorted (rid sid bpm hrv time team : String) : Json :=
  .obj [("RID", .str rid),
        ("Readings", .obj [("BPM", .str bpm), ("HRV", .str hrv)]),
        ("SID", .str sid), ("Team", .str team), ("Time", .str time)]

/-- The UpdateAsset record with its keys in canonical sorted order; note the
TIme spelling inherited from the update path. -/
def mkUpdatedAssetSorted (rid sid bpm hrv time team : String) : Json :=
  .obj [("RID", .str rid),
        ("Readings", .obj [("BPM", .str bpm), ("HRV", .str hrv)]),
        ("SID", .str sid), ("TIme", .str time), ("Team", .str team)]

theorem sortKeys_mkAsset (rid sid bpm hrv time team : String) :
    sortKeysRecursive (mkAsset rid sid bpm hrv time team) =
      mkAssetSorted rid sid bpm hrv time team := rfl

theorem sortKeys_mkAssetSorted (rid sid bpm hrv time team : String) :
    sortKeysRecursive (mkAssetSorted rid sid bpm hrv time team) =
      mkAssetSorted rid sid bpm hrv time team := rfl

theorem sortKeys_mkUpdatedAsset (rid sid bpm hrv time team : String) :
    sortKeysRecursive (mkUpdatedAsset rid sid bpm hrv time team) =
      mkUpdatedAssetSorted rid sid bpm hrv time team := rfl

theorem storeEncode_mkAsset (rid sid bpm hrv time team : String) :
    storeEncode (mkAsset rid sid bpm hrv time team) =
      jsStringify (mkAssetSorted rid sid bpm hrv time team) := rfl

theorem storeEncode_mkUpdatedAsset (rid sid bpm hrv time team : String) :
    storeEncode (mkUpdatedAsset rid sid bpm hrv time team) =
      jsStringify (mkUpdatedAssetSorted rid sid bpm hrv time team) := rfl

/-- Parsing the compact encoding of any non-empty depth-two object whose
member chain consumes exactly ten units of parser fuel recovers the object;
all three record shapes of the contract are of this form. -/
theorem parseJson_jsStringify_obj (ms : List (String × Json))
    (hne : ms ≠ []) (hd2 : ∀ kv ∈ ms, Depth2Val kv.2) (hfuel : msFuel ms = 10) :
    parseJson (jsStringify (.obj ms)) = some (.obj ms) := by
  obtain ⟨hd, tl, rfl⟩ : ∃ hd tl, ms = hd :: tl := by
    cases ms with
    | nil => exact absurd rfl hne
    | cons hd tl => exact ⟨hd, tl, rfl⟩
  have h := parseM_members_depth2 ((jsStringify (Json.obj (hd :: tl))).length)
    (hd :: tl) [] (by simp) hd2
  rw [hfuel] at h
  simp only [parseJson]
  rw [show (jsStringify (Json.obj (hd :: tl))).data =
      '{' :: (membersChars (hd :: tl) ++ '}' :: []) from rfl]
  rw [parseM_val_lbrace, objBody_step, h]
  rfl

theorem depth2_mkAssetSortedMembers (rid sid bpm hrv time team : String) :
    ∀ kv ∈ [(("RID" : String), Json.str rid),
        ("Readings", Json.obj [("BPM", Json.str bpm), ("HRV", Json.str hrv)]),
        ("SID", Json.str sid), ("Team", Json.str team), ("Time", Json.str time)],
      Depth2Val kv.2 := by
  intro kv hkv
  simp only [List.mem_cons, List.not_mem_nil, or_false] at hkv
  rcases hkv with rfl | rfl | rfl | rfl | rfl
  · exact Or.inl ⟨rid, rfl⟩
  · refine Or.inr ⟨_, rfl, by simp, ?_⟩
    intro kv2 hkv2
    simp only [List.mem_cons, List.not_mem_nil, or_false] at hkv2
    rcases hkv2 with rfl | rfl
    · exact ⟨bpm, rfl⟩
    · exact ⟨hrv, rfl⟩
  · exact Or.inl ⟨sid, rfl⟩
  · exact Or.inl ⟨team, rfl⟩
  · exact Or.inl ⟨time, rfl⟩

theorem depth2_mkAssetMembers (rid sid bpm hrv time team : String) :
    ∀ kv ∈ [(("RID" : String), Json.str rid), ("SID", Json.str sid),
        ("Readings", Json.obj [("BPM", Json.str bpm), ("HRV", Json.str hrv)]),
        ("Time", Json.str time), ("Team", Json.str team)],
      Depth2Val kv.2 := by
  intro kv hkv
  simp only [List.mem_cons, List.not_mem_nil, or_false] at hkv
  rcases hkv with rfl | rfl | rfl | rfl | rfl
  · exact Or.inl ⟨rid, rfl⟩
  · exact Or.inl ⟨sid, rfl⟩
  · refine Or.inr ⟨_, rfl, by simp, ?_⟩
    intro kv2 hkv2
    simp only [List.mem_cons, List.not_mem_nil, or_false] at hkv2
    rcases hkv2 with rfl | rfl
    · exact ⟨bpm, rfl⟩
    · exact ⟨hrv, rfl⟩
  · exact Or.inl ⟨time, rfl⟩
  · exact Or.inl ⟨team, rfl⟩

/-- The canonical stored bytes of a CreateAsset record decode to the
key-sorted record. -/
theorem parseJson_storeEncode_mkAsset (rid sid bpm hrv time team : String) :
    parseJson (storeEncode (mkAsset rid sid bpm hrv time team)) =
      some (mkAssetSorted rid sid bpm hrv time team) := by
  rw [storeEncode_mkAsset]
  exact parseJson_jsStringify_obj _ (by simp [mkAssetSorted])
    (depth2_mkAssetSortedMembers rid sid bpm hrv time team) rfl

/-- The insertion-order return text of CreateAsset decodes to the record in
construction order. -/
theorem parseJson_jsStringify_mkAsset (rid sid bpm hrv time team : String) :
    parseJson (jsStringify (mkAsset rid sid bpm hrv time team)) =
      some (mkAsset rid sid bpm hrv time team) := by
  exact parseJson_jsStringify_obj _ (by simp [mkAsset])
    (depth2_mkAssetMembers rid sid bpm hrv time team) rfl

/-! ### Remaining helpers -/

/-- Field lookup in a member list, first match wins. -/
def findField : List (String × Json) → String → Option Json
  | [], _ => none
  | (k2, v) :: rest, k => if k = k2 then some v else findField rest k

/-- Field access on a JSON object. -/
def getField (j : Json) (k : String) : Option Json :=
  match j with
  | .obj ms => findField ms k
  | _ => none

theorem keys_sortKeysMembers (l : List (String × Json)) :
    (sortKeysMembers l).map Prod.fst = l.map Prod.fst := by
  rw [sortKeysMembers_eq_map, List.map_map]
  rfl

/-- Canonical encoding is insensitive to the construction order of a
duplicate-free member list. -/
theorem storeEncode_obj_perm {l₁ l₂ : List (String × Json)} (hp : l₁.Perm l₂)
    (hn : (l₁.map Prod.fst).Nodup) :
    storeEncode (.obj l₁) = storeEncode (.obj l₂) := by
  have hmp : (sortKeysMembers l₁).Perm (sortKeysMembers l₂) := by
    rw [sortKeysMembers_eq_map, sortKeysMembers_eq_map]
    exact hp.map _
  have hmn : ((sortKeysMembers l₁).map Prod.fst).Nodup := by
    rw [keys_sortKeysMembers]
    exact hn
  have hAB := insertionSort_perm_nodup_eq hmp hmn
  exact congrArg (fun x => jsStringify (sortKeysRecursive (Json.obj x))) hAB

theorem getAllLoop_eq : ∀ (l : List (String × String)) (acc : List Json),
    getAllLoop l acc = acc ++ l.map (fun kv => listedItem kv.2)
  | [], acc => by simp [getAllLoop]
  | (k, v) :: rest, acc => by
      rw [show getAllLoop ((k, v) :: rest) acc =
          getAllLoop rest (acc ++ [listedItem v]) from rfl, getAllLoop_eq rest]
      simp

theorem length_jsStringify_obj (ms : List (String × Json)) :
    (jsStringify (Json.obj ms)).length ≠ 0 := by
  rw [show (jsStringify (Json.obj ms)).length =
      (membersChars ms ++ ['}']).length + 1 from rfl]
  omega

/-- AssetExists is false exactly when the stored value is absent or empty;
in that case ReadAsset fails with the NotFound message. -/
theorem readAsset_of_not_exists {st : WorldState} {rid : String}
    (h : AssetExists st rid = false) :
    ReadAsset st rid = (.error ("The asset " ++ rid ++ " does not exist"), st) := by
  unfold AssetExists at h
  unfold ReadAsset
  cases hg : getState st rid with
  | none => rfl
  | some v =>
      rw [hg] at h
      simp only [decide_eq_false_iff_not, Nat.not_lt, Nat.le_zero] at h
      simp [h]

theorem readAsset_state_unchanged (st : WorldState) (rid : String) :
    (ReadAsset st rid).2 = st := by
  unfold ReadAsset
  cases getState st rid with
  | none => rfl
  | some v =>
      by_cases hv : v.length = 0 <;> simp [hv]

/-! ### The claims -/

/-- C1: every record persisted by InitLedger, CreateAsset or UpdateAsset is
stored in canonical form (recursively key-sorted, compact JSON), this being
an invariant of the world state preserved by every operation, and the
canonical encoding of a duplicate-free record is independent of the
construction order of its fields. -/
theorem c1_canonical_persistence
    (st : WorldState) (rid sid bpm hrv time team : String)
    (hst : CanonicalState st) :
    CanonicalState (InitLedger st) ∧
    CanonicalState (CreateAsset st rid sid bpm hrv time team).2 ∧
    CanonicalState (UpdateAsset st rid sid bpm hrv time team).2 ∧
    CanonicalState (DeleteAsset st rid).2 ∧
    (∀ l₁ l₂ : List (String × Json), l₁.Perm l₂ → (l₁.map Prod.fst).Nodup →
      storeEncode (.obj l₁) = storeEncode (.obj l₂)) := by
  refine ⟨?_, ?_, ?_, ?_, fun l₁ l₂ hp hn => storeEncode_obj_perm hp hn⟩
  · exact canonicalState_putState hst (canonical_storeEncode _) _
  · unfold CreateAsset
    by_cases h : AssetExists st rid
    · simp only [h, if_true]
      exact hst
    · simp only [h, Bool.false_eq_true, if_false]
      exact canonicalState_putState hst (canonical_storeEncode _) _
  · unfold UpdateAsset
    by_cases h : AssetExists st rid
    · simp only [h, if_true]
      exact canonicalState_putState hst (canonical_storeEncode _) _
    · simp only [h, Bool.false_eq_true, if_false]
      exact hst
  · unfold DeleteAsset
    by_cases h : AssetExists st rid
    · simp only [h, if_true]
      exact canonicalState_deleteState hst _
    · simp only [h, Bool.false_eq_true, if_false]
      exact hst

theorem c1_canonical_persistence_witness :
    CanonicalState ([] : WorldState) ∧
    (CanonicalState (InitLedger ([] : WorldState)) ∧
      CanonicalState (CreateAsset [] "200" "5" "88" "12" "t" "team3").2 ∧
      CanonicalState (UpdateAsset [] "200" "5" "88" "12" "t" "team3").2 ∧
      CanonicalState (DeleteAsset [] "200").2 ∧
      (∀ l₁ l₂ : List (String × Json), l₁.Perm l₂ → (l₁.map Prod.fst).Nodup →
        storeEncode (.obj l₁) = storeEncode (.obj l₂))) :=
  ⟨fun p hp => absurd hp (List.not_mem_nil p),
    c1_canonical_persistence [] "200" "5" "88" "12" "t" "team3"
      (fun p hp => absurd hp (List.not_mem_nil p))⟩

/-- C2: for a fresh rid, CreateAsset succeeds and a following ReadAsset
returns the stored canonical text, which decodes to a record carrying
exactly the input fields (RID, SID, Readings.BPM, Readings.HRV, Time,
Team), even though the stored text is key-sorted while the text returned by
CreateAsset is in construction order. -/
theorem c2_create_then_read (st : WorldState) (rid sid bpm hrv time team : String)
    (h : AssetExists st rid = false) :
    (CreateAsset st rid sid bpm hrv time team).1 =
      .ok (jsStringify (mkAsset rid sid bpm hrv time team)) ∧
    (ReadAsset (CreateAsset st rid sid bpm hrv time team).2 rid).1 =
      .ok (storeEncode (mkAsset rid sid bpm hrv time team)) ∧
    parseJson (storeEncode (mkAsset rid sid bpm hrv time team)) =
      some (mkAssetSorted rid sid bpm hrv time team) ∧
    getField (mkAssetSorted rid sid bpm hrv time team) "RID" = some (.str rid) ∧
    getField (mkAssetSorted rid sid bpm hrv time team) "SID" = some (.str sid) ∧
    ((getField (mkAssetSorted rid sid bpm hrv time team) "Readings").bind
      (fun r => getField r "BPM")) = some (.str bpm) ∧
    ((getField (mkAssetSorted rid sid bpm hrv time team) "Readings").bind
      (fun r => getField r "HRV")) = some (.str hrv) ∧
    getField (mkAssetSorted rid sid bpm hrv time team) "Time" = some (.str time) ∧
    getField (mkAssetSorted rid sid bpm hrv time team) "Team" = some (.str team) := by
  have hput : (CreateAsset st rid sid bpm hrv time team).2 =
      putState st rid (storeEncode (mkAsset rid sid bpm hrv time team)) := by
    simp [CreateAsset, h]
  have hlen : (storeEncode (mkAsset rid sid bpm hrv time team)).length ≠ 0 := by
    rw [storeEncode_mkAsset]
    exact length_jsStringify_obj _
  refine ⟨by simp [CreateAsset, h], ?_,
    parseJson_storeEncode_mkAsset rid sid bpm hrv time team,
    rfl, rfl, rfl, rfl, rfl, rfl⟩
  rw [hput]
  unfold ReadAsset
  rw [getState_putState_self]
  simp [hlen]

theorem c2_create_then_read_witness :
    AssetExists ([] : WorldState) "200" = false ∧
    ((CreateAsset [] "200" "5" "88" "12" "2024-01-01T00:00:00.000Z" "team3").1 =
      .ok (jsStringify (mkAsset "200" "5" "88" "12" "2024-01-01T00:00:00.000Z" "team3")) ∧
    (ReadAsset (CreateAsset [] "200" "5" "88" "12" "2024-01-01T00:00:00.000Z" "team3").2
        "200").1 =
      .ok (storeEncode (mkAsset "200" "5" "88" "12" "2024-01-01T00:00:00.000Z" "team3")) ∧
    parseJson (storeEncode (mkAsset "200" "5" "88" "12" "2024-01-01T00:00:00.000Z" "team3")) =
      some (mkAssetSorted "200" "5" "88" "12" "2024-01-01T00:00:00.000Z" "team3") ∧
    getField (mkAssetSorted "200" "5" "88" "12" "2024-01-01T00:00:00.000Z" "team3") "RID" =
      some (.str "200") ∧
    getField (mkAssetSorted "200" "5" "88" "12" "2024-01-01T00:00:00.000Z" "team3") "SID" =
      some (.str "5") ∧
    ((getField (mkAssetSorted "200" "5" "88" "12" "2024-01-01T00:00:00.000Z" "team3")
        "Readings").bind (fun r => getField r "BPM")) = some (.str "88") ∧
    ((getField (mkAssetSorted "200" "5" "88" "12" "2024-01-01T00:00:00.000Z" "team3")
        "Readings").bind (fun r => getField r "HRV")) = some (.str "12") ∧
    getField (mkAssetSorted "200" "5" "88" "12" "2024-01-01T00:00:00.000Z" "team3") "Time" =
      some (.str "2024-01-01T00:00:00.000Z") ∧
    getField (mkAssetSorted "200" "5" "88" "12" "2024-01-01T00:00:00.000Z" "team3") "Team" =
      some (.str "team3")) :=
  ⟨rfl, c2_create_then_read [] "200" "5" "88" "12" "2024-01-01T00:00:00.000Z" "team3" rfl⟩

/-- C3: for an existing rid, UpdateAsset overwrites the stored record with
the canonical encoding of a record freshly built from the arguments, whose
timestamp key is spelled TIme (not Time): the post-update stored record has
a TIme field and no Time field. -/
theorem c3_update_overwrites_with_TIme (st : WorldState)
    (rid sid bpm hrv time team : String) (h : AssetExists st rid = true) :
    (UpdateAsset st rid sid bpm hrv time team).1 = .ok () ∧
    getState (UpdateAsset st rid sid bpm hrv time team).2 rid =
      some (storeEncode (mkUpdatedAsset rid sid bpm hrv time team)) ∧
    storeEncode (mkUpdatedAsset rid sid bpm hrv time team) =
      jsStringify (mkUpdatedAssetSorted rid sid bpm hrv time team) ∧
    getField (mkUpdatedAssetSorted rid sid bpm hrv time team) "TIme" =
      some (.str time) ∧
    getField (mkUpdatedAssetSorted rid sid bpm hrv time team) "Time" = none ∧
    getField (mkUpdatedAsset rid sid bpm hrv time team) "TIme" = some (.str time) ∧
    getField (mkUpdatedAsset rid sid bpm hrv time team) "Time" = none := by
  refine ⟨by simp [UpdateAsset, h], ?_, rfl, rfl, rfl, rfl, rfl⟩
  have hput : (UpdateAsset st rid sid bpm hrv time team).2 =
      putState st rid (storeEncode (mkUpdatedAsset rid sid bpm hrv time team)) := by
    simp [UpdateAsset, h]
  rw [hput, getState_putState_self]

theorem c3_update_overwrites_with_TIme_witness :
    AssetExists [(("101" : String), "x")] "101" = true ∧
    ((UpdateAsset [("101", "x")] "101" "5" "88" "12" "t" "team3").1 = .ok () ∧
    getState (UpdateAsset [("101", "x")] "101" "5" "88" "12" "t" "team3").2 "101" =
      some (storeEncode (mkUpdatedAsset "101" "5" "88" "12" "t" "team3")) ∧
    storeEncode (mkUpdatedAsset "101" "5" "88" "12" "t" "team3") =
      jsStringify (mkUpdatedAssetSorted "101" "5" "88" "12" "t" "team3") ∧
    getField (mkUpdatedAssetSorted "101" "5" "88" "12" "t" "team3") "TIme" =
      some (.str "t") ∧
    getField (mkUpdatedAssetSorted "101" "5" "88" "12" "t" "team3") "Time" = none ∧
    getField (mkUpdatedAsset "101" "5" "88" "12" "t" "team3") "TIme" = some (.str "t") ∧
    getField (mkUpdatedAsset "101" "5" "88" "12" "t" "team3") "Time" = none) :=
  ⟨rfl, c3_update_overwrites_with_TIme [("101", "x")] "101" "5" "88" "12" "t" "team3" rfl⟩

/-- C4: CreateAsset on an existing rid fails with the already-exists error
and leaves the world state unchanged, key by key. -/
theorem c4_create_existing_fails (st : WorldState)
    (rid sid bpm hrv time team : String) (h : AssetExists st rid = true) :
    CreateAsset st rid sid bpm hrv time team =
      (.error ("The asset " ++ rid ++ " already exists"), st) ∧
    ∀ k, getState (CreateAsset st rid sid bpm hrv time team).2 k = getState st k := by
  refine ⟨by simp [CreateAsset, h], fun k => by simp [CreateAsset, h]⟩

theorem c4_create_existing_fails_witness :
    AssetExists [(("101" : String), "x")] "101" = true ∧
    (CreateAsset [("101", "x")] "101" "5" "88" "12" "t" "team3" =
      (.error ("The asset " ++ "101" ++ " already exists"), [("101", "x")]) ∧
    ∀ k, getState (CreateAsset [("101", "x")] "101" "5" "88" "12" "t" "team3").2 k =
      getState [("101", "x")] k) :=
  ⟨rfl, c4_create_existing_fails [("101", "x")] "101" "5" "88" "12" "t" "team3" rfl⟩

/-- C5: ReadAsset, UpdateAsset and DeleteAsset on a nonexistent rid (value
absent or empty) each fail with the does-not-exist error and leave the
world state unchanged. -/
theorem c5_notfound_errors (st : WorldState)
    (rid sid bpm hrv time team : String) (h : AssetExists st rid = false) :
    ReadAsset st rid = (.error ("The asset " ++ rid ++ " does not exist"), st) ∧
    UpdateAsset st rid sid bpm hrv time team =
      (.error ("The asset " ++ rid ++ " does not exist"), st) ∧
    DeleteAsset st rid = (.error ("The asset " ++ rid ++ " does not exist"), st) := by
  exact ⟨readAsset_of_not_exists h, by simp [UpdateAsset, h], by simp [DeleteAsset, h]⟩

theorem c5_notfound_errors_witness :
    AssetExists ([] : WorldState) "7" = false ∧
    (ReadAsset ([] : WorldState) "7" =
      (.error ("The asset " ++ "7" ++ " does not exist"), []) ∧
    UpdateAsset [] "7" "5" "88" "12" "t" "team3" =
      (.error ("The asset " ++ "7" ++ " does not exist"), []) ∧
    DeleteAsset ([] : WorldState) "7" =
      (.error ("The asset " ++ "7" ++ " does not exist"), [])) :=
  ⟨rfl, c5_notfound_errors [] "7" "5" "88" "12" "t" "team3" rfl⟩

/-- C6: GetAllAssets drains the unbounded range scan to completion, emitting
one element per stored entry in scan order (so every record appears exactly
once), and a value that fails JSON decoding contributes its raw text
instead of aborting the listing. -/
theorem c6_getall_drains_with_fallback (st : WorldState) :
    GetAllAssets st =
      jsStringify (.arr ((getStateByRange st "" "").map (fun kv => listedItem kv.2))) ∧
    getStateByRange st "" "" = st ∧
    GetAllAssets st = jsStringify (.arr (st.map (fun kv => listedItem kv.2))) ∧
    (∀ k v, (k, v) ∈ st → parseJson v = none → listedItem v = .str v) := by
  have h1 : GetAllAssets st =
      jsStringify (.arr ((getStateByRange st "" "").map (fun kv => listedItem kv.2))) := by
    unfold GetAllAssets
    rw [getAllLoop_eq]
    simp
  refine ⟨h1, getStateByRange_all st, ?_, ?_⟩
  · rw [h1, getStateByRange_all]
  · intro k v _ hpf
    simp [listedItem, hpf]

theorem c6_getall_drains_with_fallback_witness :
    GetAllAssets [(("a" : String), "{}"), ("b", "not json")] =
      jsStringify (.arr ((getStateByRange [(("a" : String), "{}"), ("b", "not json")] "" "").map
        (fun kv => listedItem kv.2))) ∧
    getStateByRange [(("a" : String), "{}"), ("b", "not json")] "" "" =
      [(("a" : String), "{}"), ("b", "not json")] ∧
    GetAllAssets [(("a" : String), "{}"), ("b", "not json")] =
      jsStringify (.arr ([(("a" : String), "{}"), ("b", "not json")].map
        (fun kv => listedItem kv.2))) ∧
    (∀ k v, (k, v) ∈ [(("a" : String), "{}"), ("b", "not json")] → parseJson v = none →
      listedItem v = .str v) :=
  c6_getall_drains_with_fallback [("a", "{}"), ("b", "not json")]

/-- C7: AssetExists returns true exactly when getState yields a non-null,
non-empty value, and it is a pure predicate of the value stored at that
key. -/
theorem c7_assetExists_spec (st : WorldState) (rid : String) :
    (AssetExists st rid = true ↔ ∃ v, getState st rid = some v ∧ 0 < v.length) ∧
    (∀ st2 : WorldState, getState st2 rid = getState st rid →
      AssetExists st2 rid = AssetExists st rid) := by
  constructor
  · unfold AssetExists
    cases hg : getState st rid with
    | none => simp
    | some v => simp
  · intro st2 hsame
    unfold AssetExists
    rw [hsame]

theorem c7_assetExists_spec_witness :
    (AssetExists [(("a" : String), "v")] "a" = true ↔
      ∃ v, getState [(("a" : String), "v")] "a" = some v ∧ 0 < v.length) ∧
    (∀ st2 : WorldState, getState st2 "a" = getState [(("a" : String), "v")] "a" →
      AssetExists st2 "a" = AssetExists [(("a" : String), "v")] "a") :=
  c7_assetExists_spec [("a", "v")] "a"

/-- C8: a successful CreateAsset returns the insertion-order text of the
record (keys RID, SID, Readings, Time, Team), which differs byte-wise from
the key-sorted canonical text written to the store, yet both texts decode
to the same logical record (equal after canonical key sorting). -/
theorem c8_create_returns_insertion_order (st : WorldState)
    (rid sid bpm hrv time team : String) (h : AssetExists st rid = false) :
    (CreateAsset st rid sid bpm hrv time team).1 =
      .ok (jsStringify (mkAsset rid sid bpm hrv time team)) ∧
    getState (CreateAsset st rid sid bpm hrv time team).2 rid =
      some (storeEncode (mkAsset rid sid bpm hrv time team)) ∧
    jsStringify (mkAsset rid sid bpm hrv time team) ≠
      storeEncode (mkAsset rid sid bpm hrv time team) ∧
    parseJson (jsStringify (mkAsset rid sid bpm hrv time team)) =
      some (mkAsset rid sid bpm hrv time team) ∧
    parseJson (storeEncode (mkAsset rid sid bpm hrv time team)) =
      some (mkAssetSorted rid sid bpm hrv time team) ∧
    sortKeysRecursive (mkAsset rid sid bpm hrv time team) =
      mkAssetSorted rid sid bpm hrv time team ∧
    sortKeysRecursive (mkAssetSorted rid sid bpm hrv time team) =
      mkAssetSorted rid sid bpm hrv time team := by
  refine ⟨by simp [CreateAsset, h], ?_, ?_,
    parseJson_jsStringify_mkAsset rid sid bpm hrv time team,
    parseJson_storeEncode_mkAsset rid sid bpm hrv time team, rfl, rfl⟩
  · have hput : (CreateAsset st rid sid bpm hrv time team).2 =
        putState st rid (storeEncode (mkAsset rid sid bpm hrv time team)) := by
      simp [CreateAsset, h]
    rw [hput, getState_putState_self]
  · intro heq
    have h1 := parseJson_jsStringify_mkAsset rid sid bpm hrv time team
    rw [heq, parseJson_storeEncode_mkAsset rid sid bpm hrv time team] at h1
    simp [mkAsset, mkAssetSorted] at h1

theorem c8_create_returns_insertion_order_witness :
    AssetExists ([] : WorldState) "200" = false ∧
    ((CreateAsset [] "200" "5" "88" "12" "t" "team3").1 =
      .ok (jsStringify (mkAsset "200" "5" "88" "12" "t" "team3")) ∧
    getState (CreateAsset [] "200" "5" "88" "12" "t" "team3").2 "200" =
      some (storeEncode (mkAsset "200" "5" "88" "12" "t" "team3")) ∧
    jsStringify (mkAsset "200" "5" "88" "12" "t" "team3") ≠
      storeEncode (mkAsset "200" "5" "88" "12" "t" "team3") ∧
    parseJson (jsStringify (mkAsset "200" "5" "88" "12" "t" "team3")) =
      some (mkAsset "200" "5" "88" "12" "t" "team3") ∧
    parseJson (storeEncode (mkAsset "200" "5" "88" "12" "t" "team3")) =
      some (mkAssetSorted "200" "5" "88" "12" "t" "team3") ∧
    sortKeysRecursive (mkAsset "200" "5" "88" "12" "t" "team3") =
      mkAssetSorted "200" "5" "88" "12" "t" "team3" ∧
    sortKeysRecursive (mkAssetSorted "200" "5" "88" "12" "t" "team3") =
      mkAssetSorted "200" "5" "88" "12" "t" "team3") :=
  ⟨rfl, c8_create_returns_insertion_order [] "200" "5" "88" "12" "t" "team3" rfl⟩

/-- C9: an empty stored value behaves as nonexistence throughout the public
interface: AssetExists is false, ReadAsset fails with the does-not-exist
error, and CreateAsset succeeds, overwriting the empty value. -/
theorem c9_empty_value_is_nonexistent (st : WorldState)
    (rid sid bpm hrv time team : String) (h : getState st rid = some "") :
    AssetExists st rid = false ∧
    ReadAsset st rid = (.error ("The asset " ++ rid ++ " does not exist"), st) ∧
    (CreateAsset st rid sid bpm hrv time team).1 =
      .ok (jsStringify (mkAsset rid sid bpm hrv time team)) ∧
    getState (CreateAsset st rid sid bpm hrv time team).2 rid =
      some (storeEncode (mkAsset rid sid bpm hrv time team)) := by
  have hex : AssetExists st rid = false := by
    unfold AssetExists
    rw [h]
    rfl
  refine ⟨hex, readAsset_of_not_exists hex, by simp [CreateAsset, hex], ?_⟩
  have hput : (CreateAsset st rid sid bpm hrv time team).2 =
      putState st rid (storeEncode (mkAsset rid sid bpm hrv time team)) := by
    simp [CreateAsset, hex]
  rw [hput, getState_putState_self]

theorem c9_empty_value_is_nonexistent_witness :
    getState [(("e" : String), "")] "e" = some "" ∧
    (AssetExists [(("e" : String), "")] "e" = false ∧
    ReadAsset [(("e" : String), "")] "e" =
      (.error ("The asset " ++ "e" ++ " does not exist"), [("e", "")]) ∧
    (CreateAsset [("e", "")] "e" "5" "88" "12" "t" "team3").1 =
      .ok (jsStringify (mkAsset "e" "5" "88" "12" "t" "team3")) ∧
    getState (CreateAsset [("e", "")] "e" "5" "88" "12" "t" "team3").2 "e" =
      some (storeEncode (mkAsset "e" "5" "88" "12" "t" "team3"))) :=
  ⟨rfl, c9_empty_value_is_nonexistent [("e", "")] "e" "5" "88" "12" "t" "team3" rfl⟩

/-- C10: CreateAsset, UpdateAsset and DeleteAsset touch at most the key
equal to their rid argument (every other key reads back unchanged), and
ReadAsset returns the world state untouched; AssetExists and GetAllAssets
are read-only by construction in this model. -/
theorem c10_frame (st : WorldState) (rid sid bpm hrv time team k : String)
    (hk : k ≠ rid) :
    getState (CreateAsset st rid sid bpm hrv time team).2 k = getState st k ∧
    getState (UpdateAsset st rid sid bpm hrv time team).2 k = getState st k ∧
    getState (DeleteAsset st rid).2 k = getState st k ∧
    (ReadAsset st rid).2 = st := by
  refine ⟨?_, ?_, ?_, readAsset_state_unchanged st rid⟩
  · unfold CreateAsset
    by_cases h : AssetExists st rid
    · simp [h]
    · simp only [h, Bool.false_eq_true, if_false]
      exact getState_putState_ne st _ hk
  · unfold UpdateAsset
    by_cases h : AssetExists st rid
    · simp only [h, if_true]
      exact getState_putState_ne st _ hk
    · simp [h]
  · unfold DeleteAsset
    by_cases h : AssetExists st rid
    · simp only [h, if_true]
      exact getState_deleteState_ne st hk
    · simp [h]

theorem c10_frame_witness :
    ("b" : String) ≠ "a" ∧
    (getState (CreateAsset [] "a" "5" "88" "12" "t" "team3").2 "b" =
      getState ([] : WorldState) "b" ∧
    getState (UpdateAsset [] "a" "5" "88" "12" "t" "team3").2 "b" =
      getState ([] : WorldState) "b" ∧
    getState (DeleteAsset ([] : WorldState) "a").2 "b" = getState ([] : WorldState) "b" ∧
    (ReadAsset ([] : WorldState) "a").2 = []) :=
  ⟨by decide, c10_frame [] "a" "5" "88" "12" "t" "team3" "b" (by decide)⟩

/-! ### Concrete evaluations -/

/-- The stored canonical bytes of the example record of the specification:
keys in alphabetical order, no whitespace. -/
theorem storeEncode_example :
    storeEncode (mkAsset "200" "5" "88" "12" "2024-01-01T00:00:00.000Z" "team3") =
      "\x7b\"RID\":\"200\",\"Readings\":\x7b\"BPM\":\"88\",\"HRV\":\"12\"\x7d,\"SID\":\"5\",\"Team\":\"team3\",\"Time\":\"2024-01-01T00:00:00.000Z\"\x7d" := rfl

/-- The canonical bytes written by InitLedger for the seed asset. -/
theorem storeEncode_initAsset :
    storeEncode initAsset =
      "\x7b\"RID\":\"101\",\"Readings\":\x7b\"BPM\":100,\"HRV\":10\x7d,\"SID\":\"1\",\"Team\":\"team3\",\"Time\":\"2023-11-04T15:30:00.000Z\",\"docType\":\"asset\"\x7d" := rfl

/-- The parser model accepts the JSON fragment the contract manipulates. -/
theorem parseJson_example :
    parseJson "\x7b\"a\":\"b\",\"c\":[1,-2,true,null]\x7d" =
      some (.obj [("a", .str "b"), ("c", .arr [.num 1, .num (-2), .bool true, .null])]) :=
  rfl

/-- The parser model rejects malformed text. -/
theorem parseJson_garbage : parseJson "garbage" = none := rfl
